import Mathlib

/-!
# Verification of the go-novu workflows service (`lib/workflows.go`)

Shallow embedding of the `WorkflowService` CRUD wrapper and of the parts of
Go's standard library it relies on (`net/url`, `path`, `strconv`).

Modelling conventions:
* Go strings are modelled as `Str := List Char`.  The model treats
  percent-decoding at the level of code points; this is byte-exact for the
  ASCII inputs the service itself ever generates.
* The HTTP transport (`makeHTTPRequest` lives in the repository's client
  code, outside the sources given here) is modelled from the spec as an
  opaque function `(context, method, url, body) -> (response, error)`;
  the model additionally records the list of transport invocations so that
  "exactly one request is issued" is expressible.
* `url.URL` is modelled with the fields the SDK uses: `scheme`, `host`,
  `path` (decoded, Go's `URL.Path`), `rawPath` (Go's `URL.RawPath`) and
  `rawQuery`.  `Opaque`, `User`, `Fragment`, `ForceQuery` and `OmitHost`
  are never set by the SDK and are omitted (they are zero in every URL the
  service constructs).
-/

namespace GoNovu

/-- Go strings, as lists of characters. -/
abbrev Str := List Char

/-- Embed a Lean string literal as a `Str`. -/
def str (s : String) : Str := s.data

/-! ## `net/url` escaping (Go `shouldEscape`, `escape`, `unescape`) -/

/-- Go's `encoding` enumeration, restricted to the modes reachable from the
workflows service: `encodePath`, `encodePathSegment`, `encodeHost` and
`encodeQueryComponent`. -/
inductive Mode where
  | path
  | pathSegment
  | host
  | queryComponent
  deriving DecidableEq

/-- Go test `'a' <= c && c <= 'z' || 'A' <= c && c <= 'Z' || '0' <= c && c <= '9'`
(Go compares bytes; we compare the code point, identical on ASCII). -/
def isAlnum (c : Char) : Bool :=
  (48 ≤ c.toNat && c.toNat ≤ 57) ||
  (65 ≤ c.toNat && c.toNat ≤ 90) ||
  (97 ≤ c.toNat && c.toNat ≤ 122)

/-- Go `shouldEscape(c, mode)` (net/url). -/
def shouldEscape (c : Char) (m : Mode) : Bool :=
  if isAlnum c then false
  else if m = Mode.host &&
      c ∈ ['!', '$', '&', '\'', '(', ')', '*', '+', ',', ';', '=', ':',
           '[', ']', '<', '>', '"'] then false
  else if c ∈ ['-', '_', '.', '~'] then false
  else if c ∈ ['$', '&', '+', ',', '/', ':', ';', '=', '?', '@'] then
    match m with
    | Mode.path => c == '?'
    | Mode.pathSegment => c == '/' || c == ';' || c == ',' || c == '?'
    | Mode.host => true
    | Mode.queryComponent => true
  else true

/-- Upper-case hexadecimal digit (Go `upperhex`). -/
def upperHexDigit (n : Nat) : Char :=
  if n < 10 then Char.ofNat (48 + n) else Char.ofNat (55 + n)

/-- The `%XX` encoding of one byte. -/
def percentEnc (b : Nat) : Str :=
  ['%', upperHexDigit (b / 16), upperHexDigit (b % 16)]

/-- UTF-8 bytes of a character (Go strings are UTF-8 byte strings). -/
def utf8Bytes (c : Char) : List Nat :=
  let n := c.toNat
  if n < 0x80 then [n]
  else if n < 0x800 then [0xC0 + n / 0x40, 0x80 + n % 0x40]
  else if n < 0x10000 then
    [0xE0 + n / 0x1000, 0x80 + n / 0x40 % 0x40, 0x80 + n % 0x40]
  else
    [0xF0 + n / 0x40000, 0x80 + n / 0x1000 % 0x40, 0x80 + n / 0x40 % 0x40,
     0x80 + n % 0x40]

/-- One step of Go `escape`: an unescaped byte passes through, a space in
query mode becomes `+`, every other escaped byte becomes `%XX` (a non-ASCII
character contributes one `%XX` per UTF-8 byte, all of which Go escapes). -/
def escapeChar (m : Mode) (c : Char) : Str :=
  if c.toNat < 0x80 then
    if shouldEscape c m then
      if c = ' ' && m = Mode.queryComponent then ['+']
      else percentEnc c.toNat
    else [c]
  else (utf8Bytes c).flatMap percentEnc

/-- Go `escape(s, mode)`. -/
def escape (s : Str) (m : Mode) : Str := s.flatMap (escapeChar m)

/-- Go `url.PathEscape` (mode `encodePathSegment`). -/
def pathEscape (s : Str) : Str := escape s Mode.pathSegment

/-- Go `ishex` (net/url). -/
def ishex (c : Char) : Bool :=
  (48 ≤ c.toNat && c.toNat ≤ 57) ||
  (97 ≤ c.toNat && c.toNat ≤ 102) ||
  (65 ≤ c.toNat && c.toNat ≤ 70)

/-- Go `unhex` (net/url). -/
def unhex (c : Char) : Nat :=
  if 48 ≤ c.toNat && c.toNat ≤ 57 then c.toNat - 48
  else if 97 ≤ c.toNat && c.toNat ≤ 102 then c.toNat - 87
  else if 65 ≤ c.toNat && c.toNat ≤ 70 then c.toNat - 55
  else 0

/-- Go `unescape(s, mode)`; `none` models the `EscapeError` return.
A `%` must introduce two hex digits; `+` decodes to a space in query
components only. -/
def unescape (m : Mode) : Str → Option Str
  | [] => some []
  | c :: rest =>
    if c = '%' then
      match rest with
      | a :: b :: rest2 =>
        if ishex a && ishex b then
          (unescape m rest2).map (fun r => Char.ofNat (16 * unhex a + unhex b) :: r)
        else none
      | _ => none
    else if c = '+' then
      (unescape m rest).map (fun r => (if m = Mode.queryComponent then ' ' else '+') :: r)
    else (unescape m rest).map (fun r => c :: r)

/-- One character of Go `validEncoded` (net/url): sub-delims, `[`/`]` and
`%` are accepted, everything else defers to `shouldEscape`. -/
def validEncodedChar (m : Mode) (c : Char) : Bool :=
  if c ∈ ['!', '$', '&', '\'', '(', ')', '*', '+', ',', ';', '=', ':', '@'] then true
  else if c ∈ ['[', ']'] then true
  else if c = '%' then true
  else !shouldEscape c m

/-- Go `validEncoded(s, mode)`. -/
def validEncoded (s : Str) (m : Mode) : Bool := s.all (validEncodedChar m)

/-! ## The `path` package: `Clean` and `Join` -/

/-- Split on a separator character, like `strings.Split` with a one-character
separator (`splitOnChar sep ""` is `[""]`). -/
def splitOnChar (sep : Char) : Str → List Str
  | [] => [[]]
  | c :: rest =>
    if c = sep then [] :: splitOnChar sep rest
    else
      match splitOnChar sep rest with
      | [] => [[c]]
      | s :: ss => (c :: s) :: ss

/-- Join with a separator character, like `strings.Join` with a one-character
separator. -/
def joinWith (sep : Char) : List Str → Str
  | [] => []
  | [s] => s
  | s :: rest => s ++ sep :: joinWith sep rest

/-- Go `strings.Cut(s, sep)` for a one-character separator, without the found
flag (unused by the code under verification). -/
def cutChar (sep : Char) : Str → Str × Str
  | [] => ([], [])
  | c :: rest =>
    if c = sep then ([], rest)
    else
      let p := cutChar sep rest
      (c :: p.1, p.2)

/-- The segment loop of `path.Clean`: `.` is dropped, `..` pops the last kept
segment (on a rooted path a `..` at the root is dropped; on a relative path
it is kept), anything else is kept.  `acc` holds the kept segments in
reverse. -/
def cleanSegsAux (rooted : Bool) : List Str → List Str → List Str
  | acc, [] => acc.reverse
  | acc, s :: rest =>
    if s = str "." then cleanSegsAux rooted acc rest
    else if s = str ".." then
      match acc with
      | [] =>
        if rooted then cleanSegsAux rooted [] rest
        else cleanSegsAux rooted [str ".."] rest
      | t :: acc2 =>
        if t = str ".." then cleanSegsAux rooted (s :: t :: acc2) rest
        else cleanSegsAux rooted acc2 rest
    else cleanSegsAux rooted (s :: acc) rest

/-- Go `path.Clean`, at the granularity of segments (Go's byte machine realises
exactly this segment discipline: empty and `.` segments vanish, `..` pops,
multiple slashes collapse; `""` cleans to `"."`, a rooted path stays rooted). -/
def clean (p : Str) : Str :=
  if p = [] then str "."
  else
    let rooted := p.head? == some '/'
    let segs := (splitOnChar '/' p).filter (fun s => s != [])
    let out := cleanSegsAux rooted [] segs
    if rooted then '/' :: joinWith '/' out
    else if out = [] then str "."
    else joinWith '/' out

/-- Go `path.Join`: drop leading empty elements, put `/` between the rest, then
`Clean`; all-empty input yields `""` without cleaning. -/
def pathJoin (elems : List Str) : Str :=
  let buf := elems.foldl
    (fun buf e =>
      if buf != [] || e != [] then
        (if buf != [] then buf ++ '/' :: e else e)
      else buf)
    []
  if buf = [] then [] else clean buf

/-! ## `url.URL` -/

/-- The `url.URL` fields the workflows service touches.  `path` is the
decoded path (Go `URL.Path`), `rawPath` the optional explicit encoding
(Go `URL.RawPath`, empty when the default encoding of `path` suffices). -/
structure GoURL where
  scheme : Str
  host : Str
  path : Str
  rawPath : Str
  rawQuery : Str
  deriving DecidableEq

/-- Go `URL.EscapedPath`. -/
def GoURL.escapedPath (u : GoURL) : Str :=
  if u.rawPath ≠ [] ∧ validEncoded u.rawPath Mode.path ∧
      unescape Mode.path u.rawPath = some u.path then u.rawPath
  else if u.path = str "*" then str "*"
  else escape u.path Mode.path

/-- Go `URL.setPath`: decode `p` into `path` and record `rawPath` only when
the default encoding differs; on a decode error the URL is left unchanged
(as in `JoinPath`, which ignores `setPath`'s error). -/
def GoURL.setPath (u : GoURL) (p : Str) : GoURL :=
  match unescape Mode.path p with
  | none => u
  | some dp =>
    { u with path := dp, rawPath := if escape dp Mode.path = p then [] else p }

/-- Go `URL.JoinPath`: prepend the escaped base path, `path.Join` the
elements (keeping a relative base relative and free of leading `../`),
restore one trailing slash when the last element had one, and set the
resulting path on a copy of the URL. -/
def GoURL.joinPath (u : GoURL) (elem : List Str) : GoURL :=
  let rooted := u.escapedPath.head? == some '/'
  let elems := if rooted then u.escapedPath :: elem else ('/' :: u.escapedPath) :: elem
  let p0 := pathJoin elems
  let p1 := if rooted then p0 else p0.drop 1
  let p2 :=
    if (elems.getLastD []).getLast? == some '/' && !(p1.getLast? == some '/')
    then p1 ++ ['/'] else p1
  u.setPath p2

/-- Go `URL.String`, for URLs without `Opaque`, `User`, `Fragment`,
`ForceQuery` or `OmitHost` (the only kind the service builds). -/
def GoURL.toString (u : GoURL) : Str :=
  let s := if u.scheme != [] then u.scheme ++ [':'] else []
  let s :=
    if u.scheme != [] || u.host != [] then
      (if u.host != [] || u.path != [] then s ++ str "//" else s) ++
        escape u.host Mode.host
    else s
  let p := u.escapedPath
  let s := if p != [] && !(p.head? == some '/') && u.host != [] then s ++ ['/'] else s
  let s := if s == [] && ((cutChar '/' p).1).contains ':' then str "./" ++ p else s ++ p
  let s := if u.rawQuery != [] then s ++ '?' :: u.rawQuery else s
  s

/-! ## `strconv.Itoa` -/

/-- Digit loop of `strconv.Itoa`: peel decimal digits least-significant
first into the accumulator.  The fuel argument only bounds the recursion
(`n` itself always suffices, since `n / 10` shrinks every step); it keeps
the function structurally recursive, hence computable by the kernel. -/
def natToStrAux (fuel : Nat) (n : Nat) (acc : Str) : Str :=
  match fuel with
  | 0 => acc
  | f + 1 =>
    if n < 10 then Char.ofNat (48 + n) :: acc
    else natToStrAux f (n / 10) (Char.ofNat (48 + n % 10) :: acc)

/-- Decimal digits of a natural number (the core of `strconv.Itoa`). -/
def natToStr (n : Nat) : Str := natToStrAux (n + 1) n []

/-- Go `strconv.Itoa`. -/
def itoa (i : Int) : Str :=
  if i < 0 then '-' :: natToStr (-i).toNat else natToStr i.toNat

/-! ## `url.Values` -/

/-- Go `url.Values` (`map[string][]string`), as an association list; the
map's lack of order is irrelevant because `Encode` sorts the keys and
lookups search by key. -/
def Values : Type := List (Str × List Str)

/-- Go `Values.Set`: replace any binding of `k` with the single value `x`. -/
def Values.set (v : Values) (k x : Str) : Values :=
  (v.filter (fun kv => kv.1 != k)) ++ [(k, [x])]

/-- Go `Values.Add`: append `x` to the values bound to `k`. -/
def Values.add : Values → Str → Str → Values
  | [], k, x => [(k, [x])]
  | kv :: rest, k, x =>
    if kv.1 = k then (k, kv.2 ++ [x]) :: rest else kv :: Values.add rest k x

/-- Lexicographic order on Go strings (byte order; identical on ASCII to
code-point order), used by `Values.Encode`'s key sort. -/
def strLe : Str → Str → Bool
  | [], _ => true
  | _ :: _, [] => false
  | x :: xs, y :: ys =>
    if x = y then strLe xs ys else decide (x.toNat < y.toNat)

/-- Insertion step of the key sort. -/
def insertByKey (p : Str × List Str) : List (Str × List Str) → List (Str × List Str)
  | [] => [p]
  | q :: rest => if strLe p.1 q.1 then p :: q :: rest else q :: insertByKey p rest

/-- Sort an association list by key (Go `slices.Sort(keys)`). -/
def sortByKey (l : List (Str × List Str)) : List (Str × List Str) :=
  l.foldr insertByKey []

/-- Go `Values.Encode`: keys sorted, every `key=value` pair query-escaped
and joined with `&`. -/
def Values.encode (v : Values) : Str :=
  joinWith '&'
    ((sortByKey v).flatMap
      (fun kv => kv.2.map
        (fun x => escape kv.1 Mode.queryComponent ++ '=' :: escape x Mode.queryComponent)))

/-- Go `url.ParseQuery`, errors dropped as in `URL.Query()`: chunks split on
`&`; a chunk containing `;` or empty is skipped; key and value are cut at
the first `=` and query-unescaped, a failing unescape skips the pair. -/
def parseQuery (query : Str) : Values :=
  (splitOnChar '&' query).foldl
    (fun m kq =>
      if kq.contains ';' then m
      else if kq = [] then m
      else
        let kv := cutChar '=' kq
        match unescape Mode.queryComponent kv.1, unescape Mode.queryComponent kv.2 with
        | some k, some x => m.add k x
        | _, _ => m)
    []

/-- Go `URL.Query()`. -/
def GoURL.query (u : GoURL) : Values := parseQuery u.rawQuery

/-! ## Domain types

The request/response types and the client live in the repository outside the
given sources; they are modelled from the spec where so noted. -/

/-- Modelled from the spec: `context.Context` is an opaque cancellation /
deadline token, only ever forwarded, never inspected; a bare token type
suffices. -/
abbrev Ctx : Type := Nat

/-- Modelled from the spec: the transport's single opaque error class
("network failures, non-2xx responses, and deserialization failures — all
produced by the external transport"); only its identity matters. -/
abbrev Err : Type := String

/-- JSON values, as far as the payload shapes need them. -/
inductive Json where
  | null
  | bool (b : Bool)
  | str (s : Str)
  | obj (fields : List (Str × Json))

/-- Request bodies: `http.NoBody` or a JSON document (the transport performs
the actual marshalling). -/
inductive Body where
  | noBody
  | json (j : Json)

/-- Modelled from the spec: `JsonResponse` is "a generic container for an
arbitrary decoded JSON response body plus metadata (e.g., status code)". -/
structure JsonResponse where
  body : Json
  statusCode : Int

/-- The zero value `JsonResponse{}` returned by `CreateWorkflow` on error. -/
def JsonResponse.zero : JsonResponse := ⟨Json.null, 0⟩

/-- One transport invocation: the context, HTTP method, URL string and body
handed to `makeHTTPRequest`. -/
structure Request where
  ctx : Ctx
  method : Str
  url : Str
  body : Body

/-- Go `http.MethodGet`. -/
def methodGet : Str := str "GET"

/-- Go `http.MethodPost`. -/
def methodPost : Str := str "POST"

/-- Go `http.MethodPut`. -/
def methodPut : Str := str "PUT"

/-- Go `http.MethodDelete`. -/
def methodDelete : Str := str "DELETE"

/-- Modelled from the spec: the client configuration holds "a configured
base URL" (`config.BackendURL`). -/
structure Config where
  backendURL : GoURL

/-- Modelled from the spec: the client is "a transport function accepting
`(context, method, url, body) -> (response, error)` that performs the
actual network I/O and JSON (de)serialization", plus the configuration. -/
structure Client where
  config : Config
  transport : Request → JsonResponse × Option Err

/-- Modelled from the spec: `makeHTTPRequest` delegates one call to the
shared transport; the model also returns the singleton list of requests
issued, so call counts are observable. -/
def Client.makeHTTPRequest (c : Client) (ctx : Ctx) (method : Str) (url : Str)
    (body : Body) : (JsonResponse × Option Err) × List Request :=
  let req : Request := ⟨ctx, method, url, body⟩
  (c.transport req, [req])

/-- The declaration `type WorkflowService service`: a handle on the shared client. -/
structure WorkflowService where
  client : Client

/-- Type `CreateWorkflowRequest`: an opaque serializable record (its JSON image). -/
abbrev CreateWorkflowRequest : Type := Json

/-- Type `UpdateWorkflowRequest`: an opaque serializable record (its JSON image). -/
abbrev UpdateWorkflowRequest : Type := Json

/-- Modelled from the spec: the `{"data": ...}` envelope for create
(`WorkflowCreatePayload`); the Go field is a pointer, hence the option. -/
structure WorkflowCreatePayload where
  data : Option CreateWorkflowRequest

/-- JSON image of the create envelope (a nil pointer marshals to `null`). -/
def WorkflowCreatePayload.toJson (p : WorkflowCreatePayload) : Json :=
  Json.obj [(str "data", (p.data).getD Json.null)]

/-- Modelled from the spec: the `{"data": ...}` envelope for update
(`WorkflowUpdatePayload`); the Go field is a pointer, hence the option. -/
structure WorkflowUpdatePayload where
  data : Option UpdateWorkflowRequest

/-- JSON image of the update envelope (a nil pointer marshals to `null`). -/
def WorkflowUpdatePayload.toJson (p : WorkflowUpdatePayload) : Json :=
  Json.obj [(str "data", (p.data).getD Json.null)]

/-- The anonymous inline struct `struct { Active bool \x60json:"active"\x60 }`
built by `UpdateWorkflowStatus`. -/
structure ActiveData where
  active : Bool

/-- Modelled from the spec: the `{"data": {"active": bool}}` envelope for the
status update (`WorkflowStatusUpdatePayload`). -/
structure WorkflowStatusUpdatePayload where
  data : ActiveData

/-- JSON image of the status envelope. -/
def WorkflowStatusUpdatePayload.toJson (p : WorkflowStatusUpdatePayload) : Json :=
  Json.obj [(str "data", Json.obj [(str "active", Json.bool p.data.active)])]

/-- What one operation call produces: the returned response and error, the
transport invocations it made, and the service state after the call (every
write in the source lands on the fresh URL copy `JoinPath` returns, so the
operations leave the service untouched; `post` makes that observable). -/
structure OpResult where
  resp : JsonResponse
  err : Option Err
  calls : List Request
  post : WorkflowService

/-! ## The six operations of `lib/workflows.go` -/

/-- Operation `CreateWorkflow`: POST the `{"data": workflow}` envelope to
`BackendURL.JoinPath("workflows")`; on error return the zero
`JsonResponse` with the error. -/
def WorkflowService.CreateWorkflow (e : WorkflowService) (ctx : Ctx)
    (workflow : CreateWorkflowRequest) : OpResult :=
  let URL := e.client.config.backendURL.joinPath [str "workflows"]
  let payload : WorkflowCreatePayload := ⟨some workflow⟩
  let r := e.client.makeHTTPRequest ctx methodPost URL.toString (Body.json payload.toJson)
  { resp := match r.1.2 with
      | some _ => JsonResponse.zero
      | none => r.1.1,
    err := r.1.2, calls := r.2, post := e }

/-- Operation `UpdateWorkflow`: PUT the `{"data": workflow}` envelope to
`BackendURL.JoinPath("workflows", identifier)`; both branches return the
transport's response alongside the error. -/
def WorkflowService.UpdateWorkflow (e : WorkflowService) (ctx : Ctx)
    (identifier : Str) (workflow : Option UpdateWorkflowRequest) : OpResult :=
  let URL := e.client.config.backendURL.joinPath [str "workflows", identifier]
  let payload : WorkflowUpdatePayload := ⟨workflow⟩
  let r := e.client.makeHTTPRequest ctx methodPut URL.toString (Body.json payload.toJson)
  { resp := r.1.1, err := r.1.2, calls := r.2, post := e }

/-- Operation `UpdateWorkflowStatus`: PUT the `{"data": {"active": status}}` envelope
to `BackendURL.JoinPath("workflows", identifier)`. -/
def WorkflowService.UpdateWorkflowStatus (e : WorkflowService) (ctx : Ctx)
    (identifier : Str) (status : Bool) : OpResult :=
  let URL := e.client.config.backendURL.joinPath [str "workflows", identifier]
  let payload : WorkflowStatusUpdatePayload := ⟨⟨status⟩⟩
  let r := e.client.makeHTTPRequest ctx methodPut URL.toString (Body.json payload.toJson)
  { resp := r.1.1, err := r.1.2, calls := r.2, post := e }

/-- Operation `GetWorkflows`: set `page` and `limit` (via `strconv.Itoa`) on the query
of `BackendURL.JoinPath("workflows")` and GET it with `http.NoBody`. -/
def WorkflowService.GetWorkflows (e : WorkflowService) (ctx : Ctx)
    (page limit : Int) : OpResult :=
  let URL := e.client.config.backendURL.joinPath [str "workflows"]
  let v := URL.query
  let v := v.set (str "page") (itoa page)
  let v := v.set (str "limit") (itoa limit)
  let URL := { URL with rawQuery := v.encode }
  let r := e.client.makeHTTPRequest ctx methodGet URL.toString Body.noBody
  { resp := r.1.1, err := r.1.2, calls := r.2, post := e }

/-- Operation `GetTenant`: GET `BackendURL.JoinPath("workflows", identifier)` with
`http.NoBody`. -/
def WorkflowService.GetTenant (e : WorkflowService) (ctx : Ctx)
    (identifier : Str) : OpResult :=
  let URL := e.client.config.backendURL.joinPath [str "workflows", identifier]
  let r := e.client.makeHTTPRequest ctx methodGet URL.toString Body.noBody
  { resp := r.1.1, err := r.1.2, calls := r.2, post := e }

/-- Operation `DeleteWorkflow`: DELETE `BackendURL.JoinPath("workflows", identifier)`
with `http.NoBody`. -/
def WorkflowService.DeleteWorkflow (e : WorkflowService) (ctx : Ctx)
    (identifier : Str) : OpResult :=
  let URL := e.client.config.backendURL.joinPath [str "workflows", identifier]
  let r := e.client.makeHTTPRequest ctx methodDelete URL.toString Body.noBody
  { resp := r.1.1, err := r.1.2, calls := r.2, post := e }

/-! ## Vocabulary for the statements -/

/-- RFC 3986 unreserved characters (alphanumerics and `-`, `_`, `.`, `~`):
the characters every escaping mode passes through unchanged. -/
def unreservedChar (c : Char) : Bool :=
  isAlnum c || c ∈ ['-', '_', '.', '~']

/-- Characters a decoded rooted path may contain while being its own
default encoding: unreserved characters and the separator. -/
def pathSafeChar (c : Char) : Bool := unreservedChar c || c = '/'

/-- A segment that survives `path.Clean` untouched and needs no escaping:
nonempty, not `.` or `..`, and made of unreserved characters only. -/
def plainSegment (s : Str) : Bool :=
  s != [] && s != str "." && s != str ".." && s.all unreservedChar

/-- The rooted path with the given segments (`/a/b/c`). -/
def rootedPath (segs : List Str) : Str := '/' :: joinWith '/' segs

/-- Whether `t` is a suffix of `s` (ASCII `strings.HasSuffix`). -/
def strEndsWith (s t : Str) : Bool := s.drop (s.length - t.length) == t

/-- The URL the C1 claim predicts: the base's escaped path joined with
exactly the two segments `workflows` and the URL-path-escaped identifier.
This definition follows the claim's words (not the code), for comparison
with the code's behaviour. -/
def c1ClaimedURL (b : GoURL) (id : Str) : GoURL :=
  b.setPath (b.escapedPath ++ '/' :: str "workflows" ++ '/' :: pathEscape id)

/-- A base URL for concrete checks: `https://api.novu.co`. -/
def demoBase : GoURL := ⟨str "https", str "api.novu.co", [], [], []⟩

/-- A transport for concrete checks: always succeeds with an empty body. -/
def demoTransport : Request → JsonResponse × Option Err :=
  fun _ => (⟨Json.null, 200⟩, none)

/-- A transport for concrete checks: always fails. -/
def failTransport : Request → JsonResponse × Option Err :=
  fun _ => (⟨Json.bool true, 500⟩, some "boom")

/-- A service over `demoBase` and `demoTransport`. -/
def demoService : WorkflowService := ⟨⟨⟨demoBase⟩, demoTransport⟩⟩

/-- A service over `demoBase` and `failTransport`. -/
def failService : WorkflowService := ⟨⟨⟨demoBase⟩, failTransport⟩⟩

/-! ## Claims about error propagation and framing -/

/-- C2: every operation invokes the transport exactly once, and the error it
returns is exactly the error value of that single transport call (no retry,
no wrapping, no suppression): the returned error IS the transport's second
component. -/
theorem c2_single_call_error_identity (e : WorkflowService) (ctxv : Ctx)
    (w : CreateWorkflowRequest) (id : Str) (uw : Option UpdateWorkflowRequest)
    (b : Bool) (page limit : Int) :
    (∃ req, (e.CreateWorkflow ctxv w).calls = [req] ∧
      (e.CreateWorkflow ctxv w).err = (e.client.transport req).2) ∧
    (∃ req, (e.UpdateWorkflow ctxv id uw).calls = [req] ∧
      (e.UpdateWorkflow ctxv id uw).err = (e.client.transport req).2) ∧
    (∃ req, (e.UpdateWorkflowStatus ctxv id b).calls = [req] ∧
      (e.UpdateWorkflowStatus ctxv id b).err = (e.client.transport req).2) ∧
    (∃ req, (e.GetWorkflows ctxv page limit).calls = [req] ∧
      (e.GetWorkflows ctxv page limit).err = (e.client.transport req).2) ∧
    (∃ req, (e.GetTenant ctxv id).calls = [req] ∧
      (e.GetTenant ctxv id).err = (e.client.transport req).2) ∧
    (∃ req, (e.DeleteWorkflow ctxv id).calls = [req] ∧
      (e.DeleteWorkflow ctxv id).err = (e.client.transport req).2) :=
  ⟨⟨_, rfl, rfl⟩, ⟨_, rfl, rfl⟩, ⟨_, rfl, rfl⟩, ⟨_, rfl, rfl⟩, ⟨_, rfl, rfl⟩,
   ⟨_, rfl, rfl⟩⟩

/-- C5: `UpdateWorkflowStatus` sends a PUT whose payload is the envelope
`{"data": {"active": status}}`, for either boolean. -/
theorem c5_status_envelope (e : WorkflowService) (ctxv : Ctx) (id : Str)
    (status : Bool) :
    ∃ req, (e.UpdateWorkflowStatus ctxv id status).calls = [req] ∧
      req.method = methodPut ∧
      req.body = Body.json
        (Json.obj [(str "data", Json.obj [(str "active", Json.bool status)])]) :=
  ⟨_, rfl, rfl, rfl⟩

/-- C7: no operation validates its arguments locally: for every identifier
(the empty string included) and all integer pagination arguments (zero and
negative included) exactly one transport request is issued, and the
returned error is non-nil exactly when the transport's error is. -/
theorem c7_no_local_validation (e : WorkflowService) (ctxv : Ctx)
    (w : CreateWorkflowRequest) (id : Str) (uw : Option UpdateWorkflowRequest)
    (b : Bool) (page limit : Int) :
    (∃ req, (e.CreateWorkflow ctxv w).calls = [req] ∧
      ((e.CreateWorkflow ctxv w).err.isSome ↔ (e.client.transport req).2.isSome)) ∧
    (∃ req, (e.UpdateWorkflow ctxv id uw).calls = [req] ∧
      ((e.UpdateWorkflow ctxv id uw).err.isSome ↔ (e.client.transport req).2.isSome)) ∧
    (∃ req, (e.UpdateWorkflowStatus ctxv id b).calls = [req] ∧
      ((e.UpdateWorkflowStatus ctxv id b).err.isSome ↔ (e.client.transport req).2.isSome)) ∧
    (∃ req, (e.GetWorkflows ctxv page limit).calls = [req] ∧
      ((e.GetWorkflows ctxv page limit).err.isSome ↔ (e.client.transport req).2.isSome)) ∧
    (∃ req, (e.GetTenant ctxv id).calls = [req] ∧
      ((e.GetTenant ctxv id).err.isSome ↔ (e.client.transport req).2.isSome)) ∧
    (∃ req, (e.DeleteWorkflow ctxv id).calls = [req] ∧
      ((e.DeleteWorkflow ctxv id).err.isSome ↔ (e.client.transport req).2.isSome)) :=
  ⟨⟨_, rfl, Iff.rfl⟩, ⟨_, rfl, Iff.rfl⟩, ⟨_, rfl, Iff.rfl⟩, ⟨_, rfl, Iff.rfl⟩,
   ⟨_, rfl, Iff.rfl⟩, ⟨_, rfl, Iff.rfl⟩⟩

/-- C8: every operation forwards its context argument verbatim as the
context of the single transport call it makes. -/
theorem c8_context_forwarded (e : WorkflowService) (ctxv : Ctx)
    (w : CreateWorkflowRequest) (id : Str) (uw : Option UpdateWorkflowRequest)
    (b : Bool) (page limit : Int) :
    (∃ req, (e.CreateWorkflow ctxv w).calls = [req] ∧ req.ctx = ctxv) ∧
    (∃ req, (e.UpdateWorkflow ctxv id uw).calls = [req] ∧ req.ctx = ctxv) ∧
    (∃ req, (e.UpdateWorkflowStatus ctxv id b).calls = [req] ∧ req.ctx = ctxv) ∧
    (∃ req, (e.GetWorkflows ctxv page limit).calls = [req] ∧ req.ctx = ctxv) ∧
    (∃ req, (e.GetTenant ctxv id).calls = [req] ∧ req.ctx = ctxv) ∧
    (∃ req, (e.DeleteWorkflow ctxv id).calls = [req] ∧ req.ctx = ctxv) :=
  ⟨⟨_, rfl, rfl⟩, ⟨_, rfl, rfl⟩, ⟨_, rfl, rfl⟩, ⟨_, rfl, rfl⟩, ⟨_, rfl, rfl⟩,
   ⟨_, rfl, rfl⟩⟩

/-- C9: every operation leaves the service untouched: the base URL (path and
query included) and the transport handle after any call are the ones from
before the call (URL construction happens on the fresh copy `JoinPath`
returns, never on the configured base URL). -/
theorem c9_service_unchanged (e : WorkflowService) (ctxv : Ctx)
    (w : CreateWorkflowRequest) (id : Str) (uw : Option UpdateWorkflowRequest)
    (b : Bool) (page limit : Int) :
    (e.CreateWorkflow ctxv w).post = e ∧
    (e.UpdateWorkflow ctxv id uw).post = e ∧
    (e.UpdateWorkflowStatus ctxv id b).post = e ∧
    (e.GetWorkflows ctxv page limit).post = e ∧
    (e.GetTenant ctxv id).post = e ∧
    (e.DeleteWorkflow ctxv id).post = e :=
  ⟨rfl, rfl, rfl, rfl, rfl, rfl⟩

/-- C10: on transport failure `CreateWorkflow` discards the transport's
response and returns the zero `JsonResponse`, while the other five
operations return the response value the transport produced; on success all
return the transport's response. -/
theorem c10_error_response_values (e : WorkflowService) (ctxv : Ctx)
    (w : CreateWorkflowRequest) (id : Str) (uw : Option UpdateWorkflowRequest)
    (b : Bool) (page limit : Int) :
    (∃ req, (e.CreateWorkflow ctxv w).calls = [req] ∧
      ((e.client.transport req).2 = none →
        (e.CreateWorkflow ctxv w).resp = (e.client.transport req).1) ∧
      (∀ er, (e.client.transport req).2 = some er →
        (e.CreateWorkflow ctxv w).resp = JsonResponse.zero)) ∧
    (∃ req, (e.UpdateWorkflow ctxv id uw).calls = [req] ∧
      (e.UpdateWorkflow ctxv id uw).resp = (e.client.transport req).1) ∧
    (∃ req, (e.UpdateWorkflowStatus ctxv id b).calls = [req] ∧
      (e.UpdateWorkflowStatus ctxv id b).resp = (e.client.transport req).1) ∧
    (∃ req, (e.GetWorkflows ctxv page limit).calls = [req] ∧
      (e.GetWorkflows ctxv page limit).resp = (e.client.transport req).1) ∧
    (∃ req, (e.GetTenant ctxv id).calls = [req] ∧
      (e.GetTenant ctxv id).resp = (e.client.transport req).1) ∧
    (∃ req, (e.DeleteWorkflow ctxv id).calls = [req] ∧
      (e.DeleteWorkflow ctxv id).resp = (e.client.transport req).1) := by
  refine ⟨⟨_, rfl, fun h => ?_, fun er h => ?_⟩, ⟨_, rfl, rfl⟩, ⟨_, rfl, rfl⟩,
    ⟨_, rfl, rfl⟩, ⟨_, rfl, rfl⟩, ⟨_, rfl, rfl⟩⟩ <;>
  · simp only [WorkflowService.CreateWorkflow, Client.makeHTTPRequest]
    rw [h]

/-! ## Character-level lemmas -/

/-- An unreserved character is never escaped, in any mode. -/
theorem unreservedChar_shouldEscape {c : Char} (m : Mode)
    (h : unreservedChar c = true) : shouldEscape c m = false := by
  simp only [unreservedChar, Bool.or_eq_true, decide_eq_true_eq] at h
  rcases h with h | h
  · simp [shouldEscape, h]
  · simp only [List.mem_cons, List.not_mem_nil, or_false] at h
    rcases h with rfl | rfl | rfl | rfl <;> cases m <;> decide

/-- Alphanumeric characters are ASCII. -/
theorem isAlnum_toNat_lt {c : Char} (h : isAlnum c = true) : c.toNat < 0x80 := by
  simp only [isAlnum, Bool.or_eq_true, Bool.and_eq_true, decide_eq_true_eq] at h
  omega

/-- Unreserved characters are ASCII. -/
theorem unreservedChar_toNat_lt {c : Char} (h : unreservedChar c = true) :
    c.toNat < 0x80 := by
  simp only [unreservedChar, Bool.or_eq_true, decide_eq_true_eq] at h
  rcases h with h | h
  · exact isAlnum_toNat_lt h
  · simp only [List.mem_cons, List.not_mem_nil, or_false] at h
    rcases h with rfl | rfl | rfl | rfl <;> decide

/-- Escaping passes an unreserved character through, in any mode. -/
theorem escapeChar_unreserved {c : Char} (m : Mode)
    (h : unreservedChar c = true) : escapeChar m c = [c] := by
  have h1 := unreservedChar_toNat_lt h
  have h2 := unreservedChar_shouldEscape m h
  simp [escapeChar, h1, h2]

/-- Path-mode escaping passes a path-safe character through. -/
theorem escapeChar_pathSafe {c : Char} (h : pathSafeChar c = true) :
    escapeChar Mode.path c = [c] := by
  simp only [pathSafeChar, Bool.or_eq_true, decide_eq_true_eq] at h
  rcases h with h | rfl
  · exact escapeChar_unreserved _ h
  · decide

/-- Escaping is the identity on strings of characters it passes through. -/
theorem escape_eq_self {m : Mode} {s : Str} (h : ∀ c ∈ s, escapeChar m c = [c]) :
    escape s m = s := by
  induction s with
  | nil => rfl
  | cons c t ih =>
    simp only [escape, List.flatMap_cons] at ih ⊢
    rw [h c (by simp), ih (fun u hu => h u (by simp [hu]))]
    rfl

/-- A path-safe character is neither `%` nor `+`. -/
theorem pathSafeChar_not_pct {c : Char} (h : pathSafeChar c = true) :
    c ≠ '%' ∧ c ≠ '+' := by
  constructor <;> rintro rfl <;> revert h <;> decide

/-- Unescaping is the identity on strings without `%` and `+`. -/
theorem unescape_eq_self {m : Mode} {s : Str}
    (h : ∀ c ∈ s, c ≠ '%' ∧ c ≠ '+') : unescape m s = some s := by
  induction s with
  | nil => rfl
  | cons c t ih =>
    obtain ⟨h1, h2⟩ := h c (by simp)
    have ht := ih (fun u hu => h u (by simp [hu]))
    rw [unescape.eq_def]
    simp only [ht, h1, h2, if_false, ite_false, if_neg, Option.map_some]
    rfl

/-! ## Splitting and joining lemmas -/

/-- Splitting an empty-separator-free string yields that one chunk. -/
theorem splitOnChar_noSep {sep : Char} {s : Str} (h : sep ∉ s) :
    splitOnChar sep s = [s] := by
  induction s with
  | nil => rfl
  | cons c t ih =>
    have hc : c ≠ sep := fun e => h (by simp [e])
    rw [splitOnChar, if_neg hc, ih (fun e => h (by simp [e]))]

/-- Splitting at a leading separator produces a leading empty chunk. -/
theorem splitOnChar_sep_cons (sep : Char) (t : Str) :
    splitOnChar sep (sep :: t) = [] :: splitOnChar sep t := by
  rw [splitOnChar, if_pos rfl]

/-- Splitting distributes over a separator between a separator-free prefix
and anything. -/
theorem splitOnChar_append {sep : Char} {s : Str} (h : sep ∉ s) (t : Str) :
    splitOnChar sep (s ++ sep :: t) = s :: splitOnChar sep t := by
  induction s with
  | nil => simpa using splitOnChar_sep_cons sep t
  | cons c s2 ih =>
    have hc : c ≠ sep := fun e => h (by simp [e])
    rw [List.cons_append, splitOnChar, if_neg hc,
      ih (fun e => h (by simp [e]))]

/-- A nonempty cons-join equation for `joinWith`. -/
theorem joinWith_cons (sep : Char) (s : Str) {t : List Str} (h : t ≠ []) :
    joinWith sep (s :: t) = s ++ sep :: joinWith sep t := by
  cases t with
  | nil => exact absurd rfl h
  | cons b bs => rfl

/-- Appending nonempty segment lists inserts one separator. -/
theorem joinWith_append (sep : Char) {xs ys : List Str} (h1 : xs ≠ [])
    (h2 : ys ≠ []) :
    joinWith sep (xs ++ ys) = joinWith sep xs ++ sep :: joinWith sep ys := by
  induction xs with
  | nil => exact absurd rfl h1
  | cons x xs2 ih =>
    cases xs2 with
    | nil => rw [List.singleton_append, joinWith_cons sep x h2]; rfl
    | cons b bs =>
      rw [List.cons_append, joinWith_cons sep x (by simp),
        joinWith_cons sep x (t := b :: bs) (by simp), ih (by simp)]
      simp

/-- Every character of a join is the separator or comes from a segment. -/
theorem mem_joinWith {sep c : Char} :
    ∀ {L : List Str}, c ∈ joinWith sep L → c = sep ∨ ∃ s ∈ L, c ∈ s := by
  intro L
  induction L with
  | nil => intro h; simp [joinWith] at h
  | cons s rest ih =>
    cases rest with
    | nil => exact fun h => Or.inr ⟨s, by simp, h⟩
    | cons b bs =>
      intro h
      rw [joinWith_cons sep s (by simp)] at h
      rcases List.mem_append.mp h with hs | ht
      · exact Or.inr ⟨s, by simp, hs⟩
      · rcases List.mem_cons.mp ht with rfl | ht2
        · exact Or.inl rfl
        · rcases ih ht2 with h1 | ⟨u, hu, hcu⟩
          · exact Or.inl h1
          · exact Or.inr ⟨u, by simp [hu], hcu⟩

/-- Splitting inverts joining for nonempty separator-free segment lists. -/
theorem splitOnChar_joinWith {sep : Char} {L : List Str} (h0 : L ≠ [])
    (h : ∀ s ∈ L, sep ∉ s) : splitOnChar sep (joinWith sep L) = L := by
  induction L with
  | nil => exact absurd rfl h0
  | cons s rest ih =>
    cases rest with
    | nil => exact splitOnChar_noSep (h s (by simp))
    | cons b bs =>
      rw [joinWith_cons sep s (by simp),
        splitOnChar_append (h s (by simp)),
        ih (by simp) (fun u hu => h u (by simp [hu]))]

/-- Keeping nonempty elements keeps everything when all are nonempty. -/
theorem filter_ne_nil {L : List Str} (h : ∀ s ∈ L, s ≠ []) :
    L.filter (fun s => s != []) = L :=
  List.filter_eq_self.mpr (fun s hs => bne_iff_ne.mpr (h s hs))

/-- The last element of a nonempty list is a member. -/
theorem getLastD_mem {L : List Str} (h : L ≠ []) (d : Str) : L.getLastD d ∈ L := by
  induction L generalizing d with
  | nil => exact absurd rfl h
  | cons s rest ih =>
    rw [List.getLastD_cons]
    cases rest with
    | nil => simp [List.getLastD]
    | cons b bs => exact List.mem_cons_of_mem s (ih (by simp) s)

/-- The value of `getLast?` is a member. -/
theorem getLast?_mem_self {s : Str} {c : Char} (h : s.getLast? = some c) :
    c ∈ s := by
  induction s with
  | nil => simp at h
  | cons a t ih =>
    cases t with
    | nil => simp [List.getLast?] at h; simp [h]
    | cons b bs =>
      rw [List.getLast?_cons_cons] at h
      exact List.mem_cons_of_mem a (ih h)

/-! ## Plain segments and `clean` -/

/-- Unpacking `plainSegment`. -/
theorem plainSegment_spec {s : Str} (h : plainSegment s = true) :
    s ≠ [] ∧ s ≠ str "." ∧ s ≠ str ".." ∧ ∀ c ∈ s, unreservedChar c = true := by
  simp only [plainSegment, Bool.and_eq_true, bne_iff_ne, List.all_eq_true] at h
  exact ⟨h.1.1.1, h.1.1.2, h.1.2, h.2⟩

/-- A plain segment contains no slash. -/
theorem plainSegment_no_slash {s : Str} (h : plainSegment s = true) : '/' ∉ s := by
  intro hc
  have h2 := (plainSegment_spec h).2.2.2 _ hc
  revert h2
  decide

/-- On dot-free segments the clean loop keeps everything. -/
theorem cleanSegsAux_no_dots (rooted : Bool) {l : List Str}
    (h : ∀ s ∈ l, s ≠ str "." ∧ s ≠ str "..") :
    ∀ acc, cleanSegsAux rooted acc l = acc.reverse ++ l := by
  induction l with
  | nil => intro acc; simp [cleanSegsAux]
  | cons s rest ih =>
    intro acc
    obtain ⟨h1, h2⟩ := h s (by simp)
    have ht := ih (fun u hu => h u (by simp [hu])) (s :: acc)
    simp only [cleanSegsAux, h1, h2, if_false, ite_false, ht]
    simp

/-- Cleaning a rooted path whose nonempty-segment decomposition is dot-free
reproduces exactly those segments. -/
theorem clean_rooted {p : Str} {L : List Str} (hp : p.head? = some '/')
    (hsplit : (splitOnChar '/' p).filter (fun s => s != []) = L)
    (hL : ∀ s ∈ L, s ≠ str "." ∧ s ≠ str "..") :
    clean p = '/' :: joinWith '/' L := by
  have hne : p ≠ [] := by cases p <;> simp_all
  rw [clean, if_neg hne, hp, hsplit]
  have hb : ((some '/' : Option Char) == some '/') = true := rfl
  rw [hb, if_pos rfl, cleanSegsAux_no_dots true hL []]
  simp
/-! ## `escapedPath`, `setPath` and `joinPath` on plain inputs -/

/-- A URL whose decoded path is path-safe and has no explicit `rawPath` has
that very path as its escaped path. -/
theorem escapedPath_plain {u : GoURL} (hraw : u.rawPath = [])
    (hstar : u.path ≠ str "*")
    (hsafe : ∀ c ∈ u.path, pathSafeChar c = true) :
    u.escapedPath = u.path := by
  rw [GoURL.escapedPath, if_neg (fun hcon => hcon.1 hraw), if_neg hstar]
  exact escape_eq_self (fun c hc => escapeChar_pathSafe (hsafe c hc))

/-- Setting a path-safe path stores it decoded with no explicit encoding. -/
theorem setPath_plain (u : GoURL) {p : Str}
    (hsafe : ∀ c ∈ p, pathSafeChar c = true) :
    u.setPath p = { u with path := p, rawPath := [] } := by
  have h1 : unescape Mode.path p = some p :=
    unescape_eq_self (fun c hc => pathSafeChar_not_pct (hsafe c hc))
  have h2 : escape p Mode.path = p :=
    escape_eq_self (fun c hc => escapeChar_pathSafe (hsafe c hc))
  rw [GoURL.setPath, h1]
  simp [h2]

/-- Every character of a rooted path over plain segments is path-safe. -/
theorem rootedPath_safe {segs : List Str}
    (h : ∀ s ∈ segs, plainSegment s = true) :
    ∀ c ∈ rootedPath segs, pathSafeChar c = true := by
  intro c hc
  rcases List.mem_cons.mp hc with rfl | hj
  · decide
  · rcases mem_joinWith hj with rfl | ⟨s, hs, hcs⟩
    · decide
    · have := (plainSegment_spec (h s hs)).2.2.2 c hcs
      simp [pathSafeChar, this]

/-- A rooted path starts with the separator, hence is not `*` nor empty. -/
theorem rootedPath_head (segs : List Str) :
    (rootedPath segs).head? = some '/' := rfl

/-- The buffer loop of `path.Join` appends `/`-prefixed elements to a
nonempty buffer. -/
theorem foldl_joinBuf {init : Str} (hinit : init ≠ []) (l : List Str) :
    l.foldl
      (fun buf e =>
        if buf != [] || e != [] then
          (if buf != [] then buf ++ '/' :: e else e)
        else buf)
      init = init ++ l.flatMap (fun e => '/' :: e) := by
  induction l generalizing init with
  | nil => simp
  | cons e t ih =>
    have hb : (init != []) = true := bne_iff_ne.mpr hinit
    rw [List.foldl_cons]
    simp only [hb, Bool.true_or, if_true, if_pos]
    rw [ih (by simp)]
    simp

/-- Prefixing each segment with `/` is `/` before the join of the list. -/
theorem flatMap_slash {extra : List Str} (h : extra ≠ []) :
    extra.flatMap (fun e => '/' :: e) = '/' :: joinWith '/' extra := by
  induction extra with
  | nil => exact absurd rfl h
  | cons e t ih =>
    cases t with
    | nil => simp [joinWith]
    | cons b bs =>
      rw [List.flatMap_cons, ih (by simp), joinWith_cons '/' e (by simp)]
      simp

/-- Main `JoinPath` lemma: joining plain segments onto a rooted plain base
path appends them as segments, leaving all other URL fields alone. -/
theorem joinPath_normal (scheme host : Str) (segs extra : List Str)
    (hsegs : ∀ s ∈ segs, plainSegment s = true)
    (hextra0 : extra ≠ []) (hextra : ∀ s ∈ extra, plainSegment s = true) :
    GoURL.joinPath ⟨scheme, host, rootedPath segs, [], []⟩ extra
      = ⟨scheme, host, rootedPath (segs ++ extra), [], []⟩ := by
  have hbase_safe := rootedPath_safe hsegs
  have hstar : rootedPath segs ≠ str "*" := by
    intro hcon
    have := congrArg List.head? hcon
    simp [rootedPath, str] at this
  have hesc : GoURL.escapedPath ⟨scheme, host, rootedPath segs, [], []⟩
      = rootedPath segs :=
    escapedPath_plain rfl hstar hbase_safe
  have hLne : segs ++ extra ≠ [] := by
    simp [hextra0]
  have hLplain : ∀ s ∈ segs ++ extra, plainSegment s = true := by
    intro s hs
    rcases List.mem_append.mp hs with hs | hs
    · exact hsegs s hs
    · exact hextra s hs
  have hLnoslash : ∀ s ∈ segs ++ extra, '/' ∉ s :=
    fun s hs => plainSegment_no_slash (hLplain s hs)
  have hLdots : ∀ s ∈ segs ++ extra, s ≠ str "." ∧ s ≠ str ".." := by
    intro s hs
    have := plainSegment_spec (hLplain s hs)
    exact ⟨this.2.1, this.2.2.1⟩
  have hbuf : pathJoin (rootedPath segs :: extra)
      = '/' :: joinWith '/' (segs ++ extra) := by
    rw [pathJoin]
    have step1 : (rootedPath segs :: extra).foldl
        (fun buf e =>
          if buf != [] || e != [] then
            (if buf != [] then buf ++ '/' :: e else e)
          else buf) []
        = rootedPath segs ++ extra.flatMap (fun e => '/' :: e) := by
      rw [List.foldl_cons]
      have h0 : (([] : Str) != []) = false := rfl
      have h1 : (rootedPath segs != []) = true := bne_iff_ne.mpr (by simp [rootedPath])
      simp only [h0, h1, Bool.false_or, if_true, if_false, Bool.false_eq_true]
      exact foldl_joinBuf (by simp [rootedPath]) extra
    rw [step1, flatMap_slash hextra0]
    have hbufne : rootedPath segs ++ '/' :: joinWith '/' extra ≠ [] := by
      simp [rootedPath]
    rw [if_neg hbufne]
    rcases eq_or_ne segs [] with hsegs0 | hsegs0
    · subst hsegs0
      have heq : rootedPath [] ++ '/' :: joinWith '/' extra
          = '/' :: ('/' :: joinWith '/' extra) := rfl
      rw [heq]
      refine clean_rooted rfl ?_ (by simpa using hLdots)
      rw [splitOnChar_sep_cons, splitOnChar_sep_cons,
        splitOnChar_joinWith hextra0
        (fun s hs => plainSegment_no_slash (hextra s hs))]
      rw [List.filter_cons, List.filter_cons]
      simp only [bne_self_eq_false, Bool.false_eq_true, if_false]
      simpa using filter_ne_nil
        (fun s hs => (plainSegment_spec (hextra s hs)).1)
    · have hjoin : joinWith '/' (segs ++ extra)
          = joinWith '/' segs ++ '/' :: joinWith '/' extra :=
        joinWith_append '/' hsegs0 hextra0
      have heq : rootedPath segs ++ '/' :: joinWith '/' extra
          = '/' :: joinWith '/' (segs ++ extra) := by
        rw [hjoin, rootedPath]
        simp
      rw [heq]
      refine clean_rooted rfl ?_ hLdots
      rw [splitOnChar_sep_cons, splitOnChar_joinWith hLne hLnoslash]
      rw [List.filter_cons]
      simp only [bne_self_eq_false, Bool.false_eq_true, if_false]
      exact filter_ne_nil (fun s hs => (plainSegment_spec (hLplain s hs)).1)
  rw [GoURL.joinPath, hesc]
  have hroot : ((rootedPath segs).head? == some '/') = true := rfl
  simp only [hroot, if_true, if_pos]
  rw [hbuf]
  have hlastmem : (rootedPath segs :: extra).getLastD [] ∈ extra := by
    rw [List.getLastD_cons]
    cases extra with
    | nil => exact absurd rfl hextra0
    | cons b bs => exact getLastD_mem (by simp) _
  have hlast : (((rootedPath segs :: extra).getLastD []).getLast? == some '/')
      = false := by
    apply beq_eq_false_iff_ne.mpr
    intro hcon
    exact plainSegment_no_slash (hextra _ hlastmem) (getLast?_mem_self hcon)
  simp only [hlast, Bool.false_and, Bool.false_eq_true, if_false]
  have hfold : ('/' :: joinWith '/' (segs ++ extra)) = rootedPath (segs ++ extra) := rfl
  rw [hfold, setPath_plain _ (rootedPath_safe hLplain)]

/-- Rendering a URL with nonempty scheme and host, no explicit `rawPath`,
and a rooted path-safe path: scheme, `://`, escaped host, the path, and the
query when present. -/
theorem toString_rooted (scheme host p rq : Str) (hs : scheme ≠ [])
    (hh : host ≠ []) (hp : p.head? = some '/')
    (hsafe : ∀ c ∈ p, pathSafeChar c = true) :
    GoURL.toString ⟨scheme, host, p, [], rq⟩
      = scheme ++ str "://" ++ escape host Mode.host ++ p
        ++ (if rq = [] then [] else '?' :: rq) := by
  have hpne : p ≠ [] := by cases p <;> simp_all
  have hstar : p ≠ str "*" := by
    intro hcon
    rw [hcon] at hp
    simp [str] at hp
  have hesc : GoURL.escapedPath ⟨scheme, host, p, [], rq⟩ = p :=
    escapedPath_plain rfl hstar hsafe
  have b1 : (scheme != []) = true := bne_iff_ne.mpr hs
  have b2 : (host != []) = true := bne_iff_ne.mpr hh
  have b3 : (p != []) = true := bne_iff_ne.mpr hpne
  have b4 : (p.head? == some '/') = true := by rw [hp]; rfl
  have b5 : ((scheme ++ [':'] ++ str "//" ++ escape host Mode.host : Str) == [])
      = false := by
    apply beq_eq_false_iff_ne.mpr
    simp [hs, List.append_eq_nil, str]
  rw [GoURL.toString]
  simp only [hesc, b1, b2, b3, b4, b5, Bool.true_or, Bool.or_true, if_true,
    Bool.not_true, Bool.false_and, Bool.and_false, Bool.true_and, if_false,
    Bool.false_eq_true, ite_false, ite_true]
  have hcolon : ([':'] : Str) ++ str "//" = str "://" := rfl
  rcases eq_or_ne rq [] with hrq | hrq
  · subst hrq
    have b6 : (([] : Str) != []) = false := rfl
    simp only [b6, Bool.false_eq_true, if_false, ite_false, if_true, ite_true]
    rw [← hcolon]
    simp [List.append_assoc]
  · have b6 : (rq != []) = true := bne_iff_ne.mpr hrq
    simp only [b6, if_true, ite_true, if_neg hrq]
    rw [← hcolon]
    simp [List.append_assoc]

/-! ## Claims about URL construction -/

/-- C1 fails as stated: at base `https://api.novu.co` and identifier `a/b`,
the request URL keeps the identifier's slash as a path separator (three
segments, `/workflows/a/b`) where the claim requires the escaped two-segment
path `/workflows/a%2Fb`; `JoinPath` does not URL-path-escape its elements. -/
theorem c1_counterexample :
    ¬ ∀ req ∈ (demoService.UpdateWorkflow 0 (str "a/b") none).calls,
        req.url = (c1ClaimedURL demoBase (str "a/b")).toString := by
  decide

/-- C1 (amended): for identifiers that are plain path segments (nonempty,
not `.` or `..`, only unreserved characters, hence nothing to escape),
`UpdateWorkflow`, `UpdateWorkflowStatus`, `GetTenant` and `DeleteWorkflow`
all target the base URL's path extended by exactly the two segments
`workflows` and the identifier; other identifiers are passed through as raw
path fragments, not URL-path-escaped. -/
theorem c1_amended_two_segments (scheme host : Str) (segs : List Str)
    (tr : Request → JsonResponse × Option Err) (ctxv : Ctx) (id : Str)
    (uw : Option UpdateWorkflowRequest) (b : Bool)
    (hs : scheme ≠ []) (hh : host ≠ []) (hhost : escape host Mode.host = host)
    (hsegs : ∀ s ∈ segs, plainSegment s = true)
    (hid : plainSegment id = true) :
    ((WorkflowService.mk ⟨⟨⟨scheme, host, rootedPath segs, [], []⟩⟩, tr⟩).UpdateWorkflow
        ctxv id uw).calls.map Request.url
      = [scheme ++ str "://" ++ host ++ rootedPath (segs ++ [str "workflows", id])] ∧
    ((WorkflowService.mk ⟨⟨⟨scheme, host, rootedPath segs, [], []⟩⟩, tr⟩).UpdateWorkflowStatus
        ctxv id b).calls.map Request.url
      = [scheme ++ str "://" ++ host ++ rootedPath (segs ++ [str "workflows", id])] ∧
    ((WorkflowService.mk ⟨⟨⟨scheme, host, rootedPath segs, [], []⟩⟩, tr⟩).GetTenant
        ctxv id).calls.map Request.url
      = [scheme ++ str "://" ++ host ++ rootedPath (segs ++ [str "workflows", id])] ∧
    ((WorkflowService.mk ⟨⟨⟨scheme, host, rootedPath segs, [], []⟩⟩, tr⟩).DeleteWorkflow
        ctxv id).calls.map Request.url
      = [scheme ++ str "://" ++ host ++ rootedPath (segs ++ [str "workflows", id])] := by
  have hwf : plainSegment (str "workflows") = true := by decide
  have hex : ∀ s ∈ [str "workflows", id], plainSegment s = true := by
    intro s hsm
    rcases List.mem_cons.mp hsm with rfl | hs2
    · exact hwf
    · rcases List.mem_singleton.mp hs2 with rfl
      exact hid
  have hplain2 : ∀ s ∈ segs ++ [str "workflows", id], plainSegment s = true := by
    intro s hsm
    rcases List.mem_append.mp hsm with hsm | hsm
    · exact hsegs s hsm
    · exact hex s hsm
  have hj : GoURL.joinPath ⟨scheme, host, rootedPath segs, [], []⟩
      [str "workflows", id]
      = ⟨scheme, host, rootedPath (segs ++ [str "workflows", id]), [], []⟩ :=
    joinPath_normal scheme host segs [str "workflows", id] hsegs (by simp) hex
  have hts : GoURL.toString
      ⟨scheme, host, rootedPath (segs ++ [str "workflows", id]), [], []⟩
      = scheme ++ str "://" ++ host
        ++ rootedPath (segs ++ [str "workflows", id]) := by
    rw [toString_rooted scheme host _ [] hs hh (rootedPath_head _)
      (rootedPath_safe hplain2), hhost]
    simp
  refine ⟨?_, ?_, ?_, ?_⟩
  · show [(GoURL.joinPath ⟨scheme, host, rootedPath segs, [], []⟩
      [str "workflows", id]).toString] = _
    rw [hj, hts]
  · show [(GoURL.joinPath ⟨scheme, host, rootedPath segs, [], []⟩
      [str "workflows", id]).toString] = _
    rw [hj, hts]
  · show [(GoURL.joinPath ⟨scheme, host, rootedPath segs, [], []⟩
      [str "workflows", id]).toString] = _
    rw [hj, hts]
  · show [(GoURL.joinPath ⟨scheme, host, rootedPath segs, [], []⟩
      [str "workflows", id]).toString] = _
    rw [hj, hts]

/-- Witness for the amended C1 at base `https://api.novu.co/v1` and
identifier `wf_123`. -/
theorem c1_amended_two_segments_witness :
    ((WorkflowService.mk ⟨⟨⟨str "https", str "api.novu.co",
        rootedPath [str "v1"], [], []⟩⟩, demoTransport⟩).UpdateWorkflow
        0 (str "wf_123") none).calls.map Request.url
      = [str "https" ++ str "://" ++ str "api.novu.co"
          ++ rootedPath ([str "v1"] ++ [str "workflows", str "wf_123"])] ∧
    ((WorkflowService.mk ⟨⟨⟨str "https", str "api.novu.co",
        rootedPath [str "v1"], [], []⟩⟩, demoTransport⟩).UpdateWorkflowStatus
        0 (str "wf_123") true).calls.map Request.url
      = [str "https" ++ str "://" ++ str "api.novu.co"
          ++ rootedPath ([str "v1"] ++ [str "workflows", str "wf_123"])] ∧
    ((WorkflowService.mk ⟨⟨⟨str "https", str "api.novu.co",
        rootedPath [str "v1"], [], []⟩⟩, demoTransport⟩).GetTenant
        0 (str "wf_123")).calls.map Request.url
      = [str "https" ++ str "://" ++ str "api.novu.co"
          ++ rootedPath ([str "v1"] ++ [str "workflows", str "wf_123"])] ∧
    ((WorkflowService.mk ⟨⟨⟨str "https", str "api.novu.co",
        rootedPath [str "v1"], [], []⟩⟩, demoTransport⟩).DeleteWorkflow
        0 (str "wf_123")).calls.map Request.url
      = [str "https" ++ str "://" ++ str "api.novu.co"
          ++ rootedPath ([str "v1"] ++ [str "workflows", str "wf_123"])] :=
  c1_amended_two_segments (str "https") (str "api.novu.co") [str "v1"]
    demoTransport 0 (str "wf_123") none true (by decide) (by decide)
    (by decide) (by decide) (by decide)

/-- C4: `CreateWorkflow` issues a POST to the base URL's path extended by
the single segment `workflows`, with the payload envelope
`{"data": workflow}`. -/
theorem c4_create_post_envelope (scheme host : Str) (segs : List Str)
    (tr : Request → JsonResponse × Option Err) (ctxv : Ctx)
    (w : CreateWorkflowRequest)
    (hs : scheme ≠ []) (hh : host ≠ []) (hhost : escape host Mode.host = host)
    (hsegs : ∀ s ∈ segs, plainSegment s = true) :
    ((WorkflowService.mk ⟨⟨⟨scheme, host, rootedPath segs, [], []⟩⟩, tr⟩).CreateWorkflow
        ctxv w).calls
      = [⟨ctxv, methodPost,
          scheme ++ str "://" ++ host ++ rootedPath (segs ++ [str "workflows"]),
          Body.json (Json.obj [(str "data", w)])⟩] := by
  have hex : ∀ s ∈ [str "workflows"], plainSegment s = true := by
    intro s hsm
    rcases List.mem_singleton.mp hsm with rfl
    decide
  have hplain2 : ∀ s ∈ segs ++ [str "workflows"], plainSegment s = true := by
    intro s hsm
    rcases List.mem_append.mp hsm with hsm | hsm
    · exact hsegs s hsm
    · exact hex s hsm
  have hj : GoURL.joinPath ⟨scheme, host, rootedPath segs, [], []⟩
      [str "workflows"]
      = ⟨scheme, host, rootedPath (segs ++ [str "workflows"]), [], []⟩ :=
    joinPath_normal scheme host segs [str "workflows"] hsegs (by simp) hex
  have hts : GoURL.toString
      ⟨scheme, host, rootedPath (segs ++ [str "workflows"]), [], []⟩
      = scheme ++ str "://" ++ host ++ rootedPath (segs ++ [str "workflows"]) := by
    rw [toString_rooted scheme host _ [] hs hh (rootedPath_head _)
      (rootedPath_safe hplain2), hhost]
    simp
  show [(⟨ctxv, methodPost,
      (GoURL.joinPath ⟨scheme, host, rootedPath segs, [], []⟩
        [str "workflows"]).toString,
      Body.json (Json.obj [(str "data", w)])⟩ : Request)] = _
  rw [hj, hts]

/-- Witness for C4 at base `https://api.novu.co/v1`. -/
theorem c4_create_post_envelope_witness :
    ((WorkflowService.mk ⟨⟨⟨str "https", str "api.novu.co",
        rootedPath [str "v1"], [], []⟩⟩, demoTransport⟩).CreateWorkflow
        0 Json.null).calls
      = [⟨0, methodPost,
          str "https" ++ str "://" ++ str "api.novu.co"
            ++ rootedPath ([str "v1"] ++ [str "workflows"]),
          Body.json (Json.obj [(str "data", Json.null)])⟩] :=
  c4_create_post_envelope (str "https") (str "api.novu.co") [str "v1"]
    demoTransport 0 Json.null (by decide) (by decide) (by decide) (by decide)

/-! ## Decimal rendering and query encoding -/

/-- Decimal digit characters are unreserved. -/
theorem digitChar_unreserved {d : Nat} (h : d < 10) :
    unreservedChar (Char.ofNat (48 + d)) = true := by
  interval_cases d <;> decide

/-- Every character the digit loop emits is a digit or from the
accumulator. -/
theorem natToStrAux_chars (fuel : Nat) :
    ∀ n acc, ∀ c ∈ natToStrAux fuel n acc,
      (∃ d, d < 10 ∧ c = Char.ofNat (48 + d)) ∨ c ∈ acc := by
  induction fuel with
  | zero => intro n acc c hc; exact Or.inr hc
  | succ f ih =>
    intro n acc c hc
    rw [natToStrAux] at hc
    by_cases hn : n < 10
    · rw [if_pos hn] at hc
      rcases List.mem_cons.mp hc with rfl | hc2
      · exact Or.inl ⟨n, hn, rfl⟩
      · exact Or.inr hc2
    · rw [if_neg hn] at hc
      rcases ih (n / 10) _ c hc with h | h
      · exact Or.inl h
      · rcases List.mem_cons.mp h with rfl | h2
        · exact Or.inl ⟨n % 10, Nat.mod_lt _ (by omega), rfl⟩
        · exact Or.inr h2

/-- Every character of `natToStr` is a decimal digit character. -/
theorem natToStr_chars (n : Nat) :
    ∀ c ∈ natToStr n, ∃ d, d < 10 ∧ c = Char.ofNat (48 + d) := by
  intro c hc
  rcases natToStrAux_chars (n + 1) n [] c hc with h | h
  · exact h
  · simp at h

/-- For non-negative input `strconv.Itoa` yields unreserved characters. -/
theorem itoa_nonneg_unreserved {i : Int} (h : 0 ≤ i) :
    ∀ c ∈ itoa i, unreservedChar c = true := by
  intro c hc
  rw [itoa, if_neg (by omega)] at hc
  obtain ⟨d, hd, rfl⟩ := natToStr_chars _ c hc
  exact digitChar_unreserved hd

/-- Query escaping leaves a non-negative decimal rendering unchanged. -/
theorem escape_itoa {i : Int} (h : 0 ≤ i) :
    escape (itoa i) Mode.queryComponent = itoa i :=
  escape_eq_self
    (fun c hc => escapeChar_unreserved _ (itoa_nonneg_unreserved h c hc))

/-- The query `GetWorkflows` builds over an empty base query: `page` and
`limit` are set and `Encode` renders them in sorted key order. -/
theorem encode_page_limit (page limit : Int) (hp : 0 ≤ page) (hl : 0 ≤ limit) :
    Values.encode
        (Values.set (Values.set (parseQuery []) (str "page") (itoa page))
          (str "limit") (itoa limit))
      = str "limit=" ++ itoa limit ++ str "&page=" ++ itoa page := by
  have hset : Values.set (Values.set (parseQuery []) (str "page") (itoa page))
      (str "limit") (itoa limit)
      = [(str "page", [itoa page]), (str "limit", [itoa limit])] := rfl
  have hsort : sortByKey [(str "page", [itoa page]), (str "limit", [itoa limit])]
      = [(str "limit", [itoa limit]), (str "page", [itoa page])] := rfl
  rw [hset, Values.encode, hsort]
  simp only [List.flatMap_cons, List.flatMap_nil, List.map_cons, List.map_nil,
    List.append_nil, List.singleton_append]
  rw [escape_itoa hl, escape_itoa hp]
  have hk1 : escape (str "limit") Mode.queryComponent = str "limit" := rfl
  have hk2 : escape (str "page") Mode.queryComponent = str "page" := rfl
  rw [hk1, hk2, joinWith_cons '&' _ (by simp)]
  have he1 : str "limit=" = str "limit" ++ ['='] := rfl
  have he2 : str "&page=" = '&' :: (str "page" ++ ['=']) := rfl
  rw [he1, he2]
  have hj1 : joinWith '&' [str "page" ++ '=' :: itoa page]
      = str "page" ++ '=' :: itoa page := rfl
  rw [hj1]
  simp [List.append_assoc]

/-- C3: `GetWorkflows(page, limit)` issues a GET with `http.NoBody` whose
query string holds exactly the two decimal parameters, rendered by `Encode`
in sorted key order as `limit=<limit>&page=<page>`. -/
theorem c3_get_workflows_query (scheme host : Str) (segs : List Str)
    (tr : Request → JsonResponse × Option Err) (ctxv : Ctx) (page limit : Int)
    (hs : scheme ≠ []) (hh : host ≠ []) (hhost : escape host Mode.host = host)
    (hsegs : ∀ s ∈ segs, plainSegment s = true)
    (hp : 0 ≤ page) (hl : 0 ≤ limit) :
    ((WorkflowService.mk ⟨⟨⟨scheme, host, rootedPath segs, [], []⟩⟩, tr⟩).GetWorkflows
        ctxv page limit).calls
      = [⟨ctxv, methodGet,
          scheme ++ str "://" ++ host ++ rootedPath (segs ++ [str "workflows"])
            ++ '?' :: (str "limit=" ++ itoa limit ++ str "&page=" ++ itoa page),
          Body.noBody⟩] := by
  have hex : ∀ s ∈ [str "workflows"], plainSegment s = true := by
    intro s hsm
    rcases List.mem_singleton.mp hsm with rfl
    decide
  have hplain2 : ∀ s ∈ segs ++ [str "workflows"], plainSegment s = true := by
    intro s hsm
    rcases List.mem_append.mp hsm with hsm | hsm
    · exact hsegs s hsm
    · exact hex s hsm
  have hj : GoURL.joinPath ⟨scheme, host, rootedPath segs, [], []⟩
      [str "workflows"]
      = ⟨scheme, host, rootedPath (segs ++ [str "workflows"]), [], []⟩ :=
    joinPath_normal scheme host segs [str "workflows"] hsegs (by simp) hex
  show [(⟨ctxv, methodGet,
      (GoURL.mk
        (GoURL.joinPath ⟨scheme, host, rootedPath segs, [], []⟩
          [str "workflows"]).scheme
        (GoURL.joinPath ⟨scheme, host, rootedPath segs, [], []⟩
          [str "workflows"]).host
        (GoURL.joinPath ⟨scheme, host, rootedPath segs, [], []⟩
          [str "workflows"]).path
        (GoURL.joinPath ⟨scheme, host, rootedPath segs, [], []⟩
          [str "workflows"]).rawPath
        (Values.encode (Values.set (Values.set
          (GoURL.query (GoURL.joinPath ⟨scheme, host, rootedPath segs, [], []⟩
            [str "workflows"]))
          (str "page") (itoa page)) (str "limit") (itoa limit)))).toString,
      Body.noBody⟩ : Request)] = _
  rw [hj]
  show [(⟨ctxv, methodGet,
      (GoURL.mk scheme host (rootedPath (segs ++ [str "workflows"])) []
        (Values.encode (Values.set (Values.set (parseQuery [])
          (str "page") (itoa page)) (str "limit") (itoa limit)))).toString,
      Body.noBody⟩ : Request)] = _
  rw [encode_page_limit page limit hp hl]
  rw [toString_rooted scheme host (rootedPath (segs ++ [str "workflows"]))
    (str "limit=" ++ itoa limit ++ str "&page=" ++ itoa page) hs hh
    (rootedPath_head _) (rootedPath_safe hplain2), hhost]
  have hQne : str "limit=" ++ itoa limit ++ str "&page=" ++ itoa page ≠ [] := by
    rw [show str "limit=" = 'l' :: str "imit=" from rfl]
    simp
  rw [if_neg hQne]

/-- Witness for C3 at base `https://api.novu.co/v1`, page 2, limit 25. -/
theorem c3_get_workflows_query_witness :
    ((WorkflowService.mk ⟨⟨⟨str "https", str "api.novu.co",
        rootedPath [str "v1"], [], []⟩⟩, demoTransport⟩).GetWorkflows
        0 2 25).calls
      = [⟨0, methodGet,
          str "https" ++ str "://" ++ str "api.novu.co"
            ++ rootedPath ([str "v1"] ++ [str "workflows"])
            ++ '?' :: (str "limit=" ++ itoa 25 ++ str "&page=" ++ itoa 2),
          Body.noBody⟩] :=
  c3_get_workflows_query (str "https") (str "api.novu.co") [str "v1"]
    demoTransport 0 2 25 (by decide) (by decide) (by decide) (by decide)
    (by decide) (by decide)

/-! ## The spec's worked examples (claim C6) -/

/-- C6 fails as stated: the `GetWorkflows(2, 25)` example URL does not end
in `/workflows?page=2&limit=25` — `url.Values.Encode` sorts keys, so the
issued query is `limit=25&page=2` (the Create and Delete examples do hold,
making the conjunction false only through the List example). -/
theorem c6_counterexample :
    ¬ ((∀ req ∈ (demoService.CreateWorkflow 0
          (Json.obj [(str "name", Json.str (str "invoice-flow"))])).calls,
        req.method = methodPost ∧
          strEndsWith req.url (str "/workflows") = true ∧
          req.body = Body.json (Json.obj [(str "data",
            Json.obj [(str "name", Json.str (str "invoice-flow"))])])) ∧
      (∀ req ∈ (demoService.GetWorkflows 0 2 25).calls,
        strEndsWith req.url (str "/workflows?page=2&limit=25") = true) ∧
      (∀ req ∈ (demoService.DeleteWorkflow 0 (str "wf_123")).calls,
        req.method = methodDelete ∧
          strEndsWith req.url (str "/workflows/wf_123") = true)) := by
  intro h
  have h2 := h.2.1
  revert h2
  decide

/-- C6 (amended): over the base `https://api.novu.co`, the worked examples
hold with the query in `Encode`'s sorted key order:
`Create({"name": "invoice-flow"})` issues POST `/workflows` with body
`{"data":{"name":"invoice-flow"}}`, `GetWorkflows(ctx, 2, 25)` issues GET
ending in `/workflows?limit=25&page=2`, and `DeleteWorkflow(ctx, "wf_123")`
issues DELETE `/workflows/wf_123`. -/
theorem c6_amended_examples (tr : Request → JsonResponse × Option Err)
    (ctxv : Ctx) :
    ((WorkflowService.mk ⟨⟨demoBase⟩, tr⟩).CreateWorkflow ctxv
        (Json.obj [(str "name", Json.str (str "invoice-flow"))])).calls
      = [⟨ctxv, methodPost, str "https://api.novu.co/workflows",
          Body.json (Json.obj [(str "data",
            Json.obj [(str "name", Json.str (str "invoice-flow"))])])⟩] ∧
    ((WorkflowService.mk ⟨⟨demoBase⟩, tr⟩).GetWorkflows ctxv 2 25).calls
      = [⟨ctxv, methodGet, str "https://api.novu.co/workflows?limit=25&page=2",
          Body.noBody⟩] ∧
    ((WorkflowService.mk ⟨⟨demoBase⟩, tr⟩).DeleteWorkflow ctxv
        (str "wf_123")).calls
      = [⟨ctxv, methodDelete, str "https://api.novu.co/workflows/wf_123",
          Body.noBody⟩] := by
  have h1 : (GoURL.joinPath demoBase [str "workflows"]).toString
      = str "https://api.novu.co/workflows" := by decide
  have h2 : (GoURL.mk
      (GoURL.joinPath demoBase [str "workflows"]).scheme
      (GoURL.joinPath demoBase [str "workflows"]).host
      (GoURL.joinPath demoBase [str "workflows"]).path
      (GoURL.joinPath demoBase [str "workflows"]).rawPath
      (Values.encode (Values.set (Values.set
        (GoURL.query (GoURL.joinPath demoBase [str "workflows"]))
        (str "page") (itoa 2)) (str "limit") (itoa 25)))).toString
      = str "https://api.novu.co/workflows?limit=25&page=2" := by decide
  have h3 : (GoURL.joinPath demoBase [str "workflows", str "wf_123"]).toString
      = str "https://api.novu.co/workflows/wf_123" := by decide
  refine ⟨?_, ?_, ?_⟩
  · show [(⟨ctxv, methodPost,
      (GoURL.joinPath demoBase [str "workflows"]).toString,
      Body.json (Json.obj [(str "data",
        Json.obj [(str "name", Json.str (str "invoice-flow"))])])⟩ : Request)] = _
    rw [h1]
  · show [(⟨ctxv, methodGet,
      (GoURL.mk
        (GoURL.joinPath demoBase [str "workflows"]).scheme
        (GoURL.joinPath demoBase [str "workflows"]).host
        (GoURL.joinPath demoBase [str "workflows"]).path
        (GoURL.joinPath demoBase [str "workflows"]).rawPath
        (Values.encode (Values.set (Values.set
          (GoURL.query (GoURL.joinPath demoBase [str "workflows"]))
          (str "page") (itoa 2)) (str "limit") (itoa 25)))).toString,
      Body.noBody⟩ : Request)] = _
    rw [h2]
  · show [(⟨ctxv, methodDelete,
      (GoURL.joinPath demoBase [str "workflows", str "wf_123"]).toString,
      Body.noBody⟩ : Request)] = _
    rw [h3]

end GoNovu
